import Mathlib

/-!
Verification development for the llama-stack streaming chat-completion
normalizers, the tool-call accumulator, the stop-reason resolvers, and the
telemetry span-tree query engine.

The definitions below are shallow embeddings of:
* src/llama_stack/providers/remote/inference/groq/groq_utils.py
  (finish-reason mapping and streaming response conversion),
* src/llama_stack/providers/inline/inference/vllm/vllm.py
  (finish-reason conversion and the streaming-results normalizer with its
  per-index tool-call buffer),
* src/toolchain/inference/inference.py (meta-reference streaming
  chat-completion loop),
* src/llama_stack/apis/telemetry/telemetry.py (query_spans and its inner
  extract_spans traversal).

Generator-based Python code is modelled as functions from the list of raw
chunks to the pair (events emitted so far, optional fatal error): a fatal
exception aborts the stream but the events already yielded stand.
Python's json.loads (a standard-library collaborator, not repository code)
is modelled as a parameter of type String to Option Args.
-/

namespace LlamaStack

/-- Canonical stop reasons, mirroring the StopReason enumeration used by all
    provider adapters. -/
inductive StopReason where
  | end_of_turn
  | end_of_message
  | out_of_tokens
deriving DecidableEq, Repr

/-- Canonical chat-completion event types. -/
inductive EventType where
  | start
  | progress
  | complete
deriving DecidableEq, Repr

/-! ## Groq adapter (groq_utils.py) -/

/-- Errors raised by the groq conversion path.  toolCallsNotImplemented and
    invalidFinishReason are the two raise branches of
    _map_finish_reason_to_stop_reason; unboundLocalStopReason models the
    UnboundLocalError hit when the final yield reads a stop_reason variable
    that was never assigned. -/
inductive GroqError where
  | toolCallsNotImplemented
  | invalidFinishReason (s : String)
  | unboundLocalStopReason
deriving DecidableEq, Repr

/-- groq_utils._map_finish_reason_to_stop_reason: "stop" maps to end_of_turn,
    "length" maps to end_of_message, "tool_calls" raises NotImplementedError,
    anything else raises ValueError. -/
def map_finish_reason_to_stop_reason (finish_reason : String) :
    Except GroqError StopReason :=
  if finish_reason = "stop" then .ok .end_of_turn
  else if finish_reason = "length" then .ok .end_of_message
  else if finish_reason = "tool_calls" then .error .toolCallsNotImplemented
  else .error (.invalidFinishReason finish_reason)

/-- One raw groq stream chunk, reduced to the two fields the conversion loop
    reads from choices[0]: finish_reason and delta.content. -/
structure GroqChunk where
  finish_reason : Option String
  content : Option String
deriving DecidableEq, Repr

/-- One converted groq stream event: the event_type drawn from the
    start-then-progress generator, the delta text, and the stop_reason field
    (set only on the final complete event). -/
structure GroqEvent where
  event_type : EventType
  delta : String
  stop_reason : Option StopReason
deriving DecidableEq, Repr

/-- Python truthiness of the Optional finish_reason string. -/
def truthyFinish : Option String → Bool
  | none => false
  | some s => !s.isEmpty

/-- Loop body of groq_utils.convert_chat_completion_response_stream.
    stop carries the current value of the stop_reason local (none while still
    unassigned); first tracks the start-then-progress event-type generator.
    On iterator exhaustion the final complete chunk is yielded, raising
    UnboundLocalError when stop_reason was never assigned. -/
def groqStreamAux (stop : Option StopReason) (first : Bool) :
    List GroqChunk → List GroqEvent × Option GroqError
  | [] =>
    match stop with
    | none => ([], some .unboundLocalStopReason)
    | some sr => ([⟨.complete, "", some sr⟩], none)
  | c :: rest =>
    let et : EventType := if first then .start else .progress
    if truthyFinish c.finish_reason then
      match map_finish_reason_to_stop_reason (c.finish_reason.getD "") with
      | .error e => ([], some e)
      | .ok sr =>
        let r := groqStreamAux (some sr) false rest
        (⟨et, c.content.getD "", none⟩ :: r.1, r.2)
    else
      let r := groqStreamAux stop false rest
      (⟨et, c.content.getD "", none⟩ :: r.1, r.2)

/-- groq_utils.convert_chat_completion_response_stream over a finite chunk
    list: events actually yielded, plus the fatal error if one aborted the
    stream. -/
def convert_chat_completion_response_stream (chunks : List GroqChunk) :
    List GroqEvent × Option GroqError :=
  groqStreamAux none true chunks

/-! ## vLLM adapter (vllm.py) -/

/-- vllm._convert_finish_reason: None stays None, "stop" maps to
    end_of_turn, and every other string maps to out_of_tokens. -/
def convert_finish_reason (finish_reason : Option String) : Option StopReason :=
  match finish_reason with
  | none => none
  | some s => if s = "stop" then some .end_of_turn else some .out_of_tokens

/-- One tool-call fragment as read from delta.tool_calls entries:
    the call index, the optional id, and the optional function.name /
    function.arguments pieces. -/
structure VFrag where
  index : Nat
  id : Option String
  fname : Option String
  fargs : Option String
deriving DecidableEq, Repr

/-- Classified shape of one vLLM SSE chunk after the "data: " framing and
    JSON decoding performed at the top of the loop: the "[DONE]" terminal
    marker, a record carrying choices[0].finish_reason plus its delta, or a
    malformed chunk (bad framing or undecodable payload, both fatal). -/
inductive VDelta where
  | content (s : String)
  | tool_calls (tcs : List VFrag)
  | other
deriving DecidableEq, Repr

inductive VChunk where
  | malformed
  | done
  | record (finish_reason : Option String) (delta : VDelta)
deriving DecidableEq, Repr

/-- The per-index buffer entry of index_to_tool_call: call_id and tool_name
    are overwritten by each fragment carrying them, arguments_str is the
    append-only argument accumulator (absent until the first arguments
    fragment), and arguments holds the JSON-decoded value installed by the
    finalization pass (which also deletes arguments_str). -/
structure ToolCallBuf (Args : Type) where
  call_id : Option String := none
  tool_name : Option String := none
  arguments_str : Option String := none
  arguments : Option Args := none

/-- Fatal errors of _convert_streaming_results.  malformedChunk covers the
    two ValueError/JSONDecodeError paths for undecodable raw chunks;
    unboundStopReason is the UnboundLocalError when "[DONE]" arrives before
    any record bound converted_stop_reason; malformedDelta is the ValueError
    for a delta with neither content nor tool_calls; missingArguments is the
    KeyError when finalization reads an absent arguments_str; jsonDecodeError
    is the uncaught json.loads failure during finalization;
    unterminatedStream is the ValueError raised when the provider stream
    ends without a "[DONE]" message. -/
inductive VError where
  | malformedChunk
  | unboundStopReason
  | malformedDelta
  | missingArguments
  | jsonDecodeError
  | unterminatedStream
deriving DecidableEq, Repr

/-- Canonical events yielded by _convert_streaming_results. -/
inductive VEvent (Args : Type) where
  | start
  | progressText (text : String) (stop : Option StopReason)
  | progressTool (call_id : Option String) (tool_name : Option String)
      (args : Args) (stop : Option StopReason)
  | complete (stop : Option StopReason)
deriving DecidableEq

/-- Field updates a single tool-call fragment applies to its buffer entry:
    id and function.name overwrite when present, function.arguments appends
    to the accumulator (initializing it to "" on first sight). -/
def updateBuf {Args : Type} (b : ToolCallBuf Args) (tc : VFrag) :
    ToolCallBuf Args :=
  { call_id := match tc.id with | some s => some s | none => b.call_id
    tool_name := match tc.fname with | some n => some n | none => b.tool_name
    arguments_str :=
      match tc.fargs with
      | some a => some (b.arguments_str.getD "" ++ a)
      | none => b.arguments_str
    arguments := b.arguments }

/-- Association-list lookup standing for Python dict access keyed by call
    index (insertion order preserved). -/
def lookupBuf {Args : Type} (i : Nat) (m : List (Nat × ToolCallBuf Args)) :
    Option (ToolCallBuf Args) :=
  (m.find? (fun e => e.1 = i)).map (fun e => e.2)

/-- Routing of one fragment into index_to_tool_call: a fresh empty entry is
    appended on first sight of the index, then the entry is updated in
    place. -/
def observeFrag {Args : Type} (m : List (Nat × ToolCallBuf Args))
    (tc : VFrag) : List (Nat × ToolCallBuf Args) :=
  let m' :=
    if (lookupBuf tc.index m).isSome then m
    else m ++ [(tc.index, (⟨none, none, none, none⟩ : ToolCallBuf Args))]
  m'.map (fun e => if e.1 = tc.index then (e.1, updateBuf e.2 tc) else e)

/-- Finalization pass run when finish_reason = "tool_calls": walks the
    buffer entries in insertion order, JSON-decodes each accumulated
    arguments_str (KeyError if the key is absent, fatal decode error if the
    string is not valid JSON), deletes arguments_str, installs the decoded
    arguments, and yields one succeeded progress event per call.  Returns
    the mutated buffer map, the events yielded before any fatal error, and
    the fatal error if one occurred. -/
def finalizeAll {Args : Type} (parse : String → Option Args)
    (stop : Option StopReason) :
    List (Nat × ToolCallBuf Args) →
      List (Nat × ToolCallBuf Args) × List (VEvent Args) × Option VError
  | [] => ([], [], none)
  | (i, b) :: rest =>
    match b.arguments_str with
    | none => ([], [], some .missingArguments)
    | some s =>
      match parse s with
      | none => ([], [], some .jsonDecodeError)
      | some args =>
        let b' : ToolCallBuf Args :=
          { call_id := b.call_id, tool_name := b.tool_name,
            arguments_str := none, arguments := some args }
        let r := finalizeAll parse stop rest
        ((i, b') :: r.1,
         VEvent.progressTool b.call_id b.tool_name args stop :: r.2.1,
         r.2.2)

/-- Main loop of _convert_streaming_results, after the unconditional start
    event: sb is the converted_stop_reason local (none while unassigned), m
    is index_to_tool_call.  Iterator exhaustion without "[DONE]" raises the
    unterminated-stream ValueError. -/
def convertAux {Args : Type} (parse : String → Option Args)
    (sb : Option (Option StopReason)) (m : List (Nat × ToolCallBuf Args)) :
    List VChunk → List (VEvent Args) × Option VError
  | [] => ([], some .unterminatedStream)
  | .malformed :: _ => ([], some .malformedChunk)
  | .done :: _ =>
    match sb with
    | none => ([], some .unboundStopReason)
    | some sr => ([.complete sr], none)
  | .record fr delta :: rest =>
    let csr := convert_finish_reason fr
    match delta with
    | .other => ([], some .malformedDelta)
    | .content s =>
      let ev := VEvent.progressText s csr
      if fr = some "tool_calls" then
        match (finalizeAll parse csr m).2.2 with
        | some e => (ev :: (finalizeAll parse csr m).2.1, some e)
        | none =>
          let r := convertAux parse (some csr) (finalizeAll parse csr m).1 rest
          (ev :: (finalizeAll parse csr m).2.1 ++ r.1, r.2)
      else
        let r := convertAux parse (some csr) m rest
        (ev :: r.1, r.2)
    | .tool_calls tcs =>
      let m' := tcs.foldl observeFrag m
      if fr = some "tool_calls" then
        match (finalizeAll parse csr m').2.2 with
        | some e => ((finalizeAll parse csr m').2.1, some e)
        | none =>
          let r := convertAux parse (some csr) (finalizeAll parse csr m').1 rest
          ((finalizeAll parse csr m').2.1 ++ r.1, r.2)
      else
        let r := convertAux parse (some csr) m' rest
        (r.1, r.2)

/-- vllm._convert_streaming_results over the list of raw chunks: the start
    event is yielded unconditionally first. -/
def convert_streaming_results {Args : Type} (parse : String → Option Args)
    (chunks : List VChunk) : List (VEvent Args) × Option VError :=
  let r := convertAux parse none [] chunks
  (VEvent.start :: r.1, r.2)

/-! ## Meta-reference inference (src/toolchain/inference/inference.py) -/

/-- One result from the token generator: the decoded text piece and the
    token id appended to the tokens list. -/
structure TokenResult where
  text : String
  token : Nat
deriving DecidableEq, Repr

/-- The assistant message returned by decode_assistant_message: its content
    string and parsed tool calls (tool-call values left abstract). -/
structure MMessage (TC : Type) where
  content : String
  tool_calls : List TC

/-- Events yielded by ModelInferenceImpl.chat_completion in streaming mode.
    Tool-call deltas are split by their parse status; events yielded without
    an explicit stop_reason argument carry none. -/
inductive MEvent (TC : Type) where
  | start
  | progressText (s : String) (stop : Option StopReason)
  | progressToolStarted
  | progressToolInProgress (s : String) (stop : Option StopReason)
  | progressToolFailure (stop : Option StopReason)
  | progressToolSuccess (tc : TC) (stop : Option StopReason)
  | complete (stop : Option StopReason)
deriving DecidableEq

/-- Events emitted after the token loop of chat_completion (stream=True):
    the stop_reason default is applied, the decoded message's tool calls are
    reported (a failure delta when ipython started but nothing parsed), and
    the final complete event is yielded. -/
def metaTail {TC : Type} (decode : List Nat → StopReason → MMessage TC)
    (ipython : Bool) (stop : Option StopReason) (toks : List Nat) :
    List (MEvent TC) :=
  let stop' := stop.getD .out_of_tokens
  let msg := decode toks stop'
  (if ipython && msg.tool_calls.isEmpty then [MEvent.progressToolFailure (some stop')]
   else [])
  ++ msg.tool_calls.map (fun tc => MEvent.progressToolSuccess tc (some stop'))
  ++ [MEvent.complete (some stop')]

/-- Token loop of chat_completion (stream=True): buffer accumulates raw
    text, ipython flips on the python_tag marker (emitting a started
    tool-call delta and swallowing the marker), eot/eom tokens set
    stop_reason and blank the emitted text, and every other token is passed
    through as a progress delta. -/
def metaLoop {TC : Type} (decode : List Nat → StopReason → MMessage TC)
    (buffer : String) (ipython : Bool) (stop : Option StopReason)
    (toks : List Nat) : List TokenResult → List (MEvent TC)
  | [] => metaTail decode ipython stop toks
  | tr :: rest =>
    let buffer' := buffer ++ tr.text
    let toks' := toks ++ [tr.token]
    if !ipython && buffer'.startsWith "<|python_tag|>" then
      MEvent.progressToolStarted ::
        metaLoop decode (buffer'.drop "<|python_tag|>".length) true stop
          toks' rest
    else
      let stop' : Option StopReason :=
        if tr.text = "<|eot_id|>" then some .end_of_turn
        else if tr.text = "<|eom_id|>" then some .end_of_message
        else stop
      let text :=
        if tr.text = "<|eot_id|>" || tr.text = "<|eom_id|>" then "" else tr.text
      let ev :=
        if ipython then MEvent.progressToolInProgress text stop'
        else MEvent.progressText text stop'
      ev :: metaLoop decode buffer' ipython stop' toks' rest

/-- ModelInferenceImpl.chat_completion in streaming mode over a finite token
    stream: the unconditional start event followed by the loop. -/
def chat_completion_stream {TC : Type}
    (decode : List Nat → StopReason → MMessage TC)
    (tokens : List TokenResult) : List (MEvent TC) :=
  MEvent.start :: metaLoop decode "" false none [] tokens

/-! ## Telemetry span-tree query engine (telemetry.py) -/

/-- Attribute values are abstracted to their string rendering, with none
    standing for Python None (a null attribute value). -/
abbrev AttrMap := Option (List (String × Option String))

/-- The span fields read by extract_spans. -/
structure SpanData where
  span_id : String
  name : String
  attributes : AttrMap
deriving DecidableEq, Repr

/-- SpanWithChildren: a span together with its ordered children. -/
inductive SpanTree where
  | node (data : SpanData) (children : List SpanTree)

/-- One row built by extract_spans: the trace_id field (which the code
    fills with the trace's root_span_id), the span id, the step name, and
    the stringified requested attributes. -/
structure Row where
  trace_id : String
  span_id : String
  step_name : String
  attrs : List (String × String)
deriving DecidableEq, Repr

/-- Python truthiness of the Optional attributes dict: None and the empty
    dict are both falsy. -/
def truthyAttrs : AttrMap → Bool
  | none => false
  | some l => !l.isEmpty

/-- Dict lookup on the attributes map: none when the key is absent, some
    none when the key holds a null value. -/
def lookupAttr (m : AttrMap) (key : String) : Option (Option String) :=
  match m with
  | none => none
  | some l => (l.find? (fun e => e.1 = key)).map (fun e => e.2)

/-- The row-emission guard of extract_spans: span.attributes must be truthy
    and every requested attribute must be present with a non-null value. -/
def rowTest (attrs : List String) (d : SpanData) : Bool :=
  truthyAttrs d.attributes &&
    attrs.all (fun a =>
      match lookupAttr d.attributes a with
      | some (some _) => true
      | _ => false)

/-- The stringified value stored in a row for one requested attribute
    (the guard guarantees the lookup succeeds with a non-null value). -/
def attrStr (m : AttrMap) (a : String) : String :=
  match lookupAttr m a with
  | some (some v) => v
  | _ => ""

/-- The row dict built for a span that passes the guard; trace_id receives
    the enclosing trace's root_span_id. -/
def mkRow (attrs : List String) (rootSpanId : String) (d : SpanData) : Row :=
  ⟨rootSpanId, d.span_id, d.name, attrs.map (fun a => (a, attrStr d.attributes a))⟩

mutual

/-- The inner extract_spans closure of Telemetry.query_spans: emit the
    span's own row when the guard passes, then recurse into the children in
    order, extending the row list. -/
def extract_spans (attrs : List String) (rootSpanId : String) :
    SpanTree → List Row
  | .node d children =>
    (if rowTest attrs d then [mkRow attrs rootSpanId d] else [])
      ++ extractList attrs rootSpanId children

/-- Row extraction over a child list, in order. -/
def extractList (attrs : List String) (rootSpanId : String) :
    List SpanTree → List Row
  | [] => []
  | t :: ts => extract_spans attrs rootSpanId t ++ extractList attrs rootSpanId ts

end

mutual

/-- The pre-order (parent before children, children in order) listing of the
    span data in a tree. -/
def preorder : SpanTree → List SpanData
  | .node d children => d :: preorderList children

def preorderList : List SpanTree → List SpanData
  | [] => []
  | t :: ts => preorder t ++ preorderList ts

end

/-- The fields of Trace read by query_spans. -/
structure Trace where
  trace_id : String
  root_span_id : String
deriving DecidableEq, Repr

/-- Telemetry.query_spans with its two external collaborators abstracted:
    the traces returned by query_traces and the get_span_tree function.  For
    each trace the tree rooted at the trace's root_span_id is fetched and
    extract_spans extends the row list. -/
def query_spans (attrs : List String) (traces : List Trace)
    (getTree : String → SpanTree) : List Row :=
  (traces.map (fun tr =>
    extract_spans attrs tr.root_span_id (getTree tr.root_span_id))).flatten

/-- The flat span records supplied to the tree builder. -/
structure FlatSpan where
  span_id : String
  parent_span_id : Option String
  name : String
  attributes : AttrMap
deriving DecidableEq, Repr

/-- Modelled from the spec: the recursive attachment step of buildTree
    (get_span_tree has no implementation under src, only its Protocol
    declaration).  Children of a span are the flat records whose
    parent_span_id points at it, in list order; the fuel counter realizes
    the depth bound, spans beyond it being omitted. -/
def buildNode (flat : List FlatSpan) : Nat → FlatSpan → SpanTree
  | 0, s => .node ⟨s.span_id, s.name, s.attributes⟩ []
  | d + 1, s =>
    .node ⟨s.span_id, s.name, s.attributes⟩
      ((flat.filter (fun c => c.parent_span_id = some s.span_id)).map
        (buildNode flat d))

/-- Modelled from the spec: buildTree(rootSpanId, flatSpans) with optional
    maxDepth.  The root record is looked up in the flat list; when maxDepth
    is absent the recursion is still depth-bounded by the list length, which
    suffices for any well-formed (acyclic) input and keeps the builder from
    looping on cyclic parent pointers. -/
def buildTree (flat : List FlatSpan) (rootSpanId : String)
    (maxDepth : Option Nat) : Option SpanTree :=
  (flat.find? (fun s => s.span_id = rootSpanId)).map
    (buildNode flat (maxDepth.getD flat.length))

/-! ## Auxiliary definitions used by the statements -/

/-- A plain-text chunk: a record carrying the given finish_reason and a
    content delta. -/
def textChunk (p : String × Option String) : VChunk :=
  .record p.2 (.content p.1)

/-- Concatenation of a list of strings in order. -/
def concatStrings : List String → String
  | [] => ""
  | a :: l => a ++ concatStrings l

/-- The empty tool-call buffer created on first sight of an index. -/
def emptyBuf (Args : Type) : ToolCallBuf Args := ⟨none, none, none, none⟩

/-- The progress event emitted for one text chunk. -/
def textEvent (Args : Type) (p : String × Option String) : VEvent Args :=
  .progressText p.1 (convert_finish_reason p.2)

/-! ## Lemmas about the vLLM normalizer -/

theorem observeFrag_nil {Args : Type} (f : VFrag) :
    observeFrag ([] : List (Nat × ToolCallBuf Args)) f
      = [(f.index, updateBuf (emptyBuf Args) f)] := by
  simp [observeFrag, lookupBuf, emptyBuf]

/-- Processing a prefix of plain-text chunks emits one progress event per
    chunk and passes control to the rest of the stream with
    converted_stop_reason rebound to the last prefix chunk's converted
    finish_reason and the tool-call buffer still empty. -/
theorem convertAux_text_prefix {Args : Type} (parse : String → Option Args)
    (txts : List (String × Option String)) (sb : Option (Option StopReason))
    (rest : List VChunk) :
    convertAux parse sb [] (txts.map textChunk ++ rest)
      = (txts.map (textEvent Args)
          ++ (convertAux parse
                (txts.foldl (fun _ p => some (convert_finish_reason p.2)) sb)
                [] rest).1,
         (convertAux parse
            (txts.foldl (fun _ p => some (convert_finish_reason p.2)) sb)
            [] rest).2) := by
  induction txts generalizing sb with
  | nil => simp
  | cons p txts ih =>
    by_cases h : p.2 = some "tool_calls" <;>
      simp [textChunk, textEvent, convertAux, finalizeAll, h, ih]

theorem convertAux_foldl_last (txts : List (String × Option String))
    (p : String × Option String) (sb : Option (Option StopReason)) :
    (txts ++ [p]).foldl (fun _ q => some (convert_finish_reason q.2)) sb
      = some (convert_finish_reason p.2) := by
  simp

/-- A stream made only of text chunks, closing without "[DONE]": every text
    delta is passed through and the loop ends in the unterminated-stream
    error. -/
theorem convertAux_text_unterminated {Args : Type}
    (parse : String → Option Args) (txts : List (String × Option String))
    (sb : Option (Option StopReason)) :
    convertAux parse sb [] (txts.map textChunk)
      = (txts.map (textEvent Args), some .unterminatedStream) := by
  have h := convertAux_text_prefix parse txts sb []
  simpa [convertAux] using h

/-- A complete event never occurs among text progress events. -/
theorem complete_not_mem_textEvents {Args : Type} (sr : Option StopReason)
    (txts : List (String × Option String)) :
    VEvent.complete sr ∉ txts.map (textEvent Args) := by
  intro h
  rcases List.mem_map.mp h with ⟨p, _, hp⟩
  simp [textEvent] at hp

/-- A nonempty stream of text chunks followed by "[DONE]": one progress
    event per text chunk in order, then a complete event carrying the
    converted finish_reason of the last chunk, and no error. -/
theorem convertAux_text_done {Args : Type} (parse : String → Option Args)
    (txts : List (String × Option String)) (p : String × Option String)
    (sb : Option (Option StopReason)) :
    convertAux parse sb [] ((txts ++ [p]).map textChunk ++ [.done])
      = ((txts ++ [p]).map (textEvent Args)
          ++ [.complete (convert_finish_reason p.2)], none) := by
  have h := convertAux_text_prefix parse (txts ++ [p]) sb [VChunk.done]
  rw [convertAux_foldl_last txts p sb] at h
  simpa [convertAux] using h

/-! ## Lemmas about the groq stream conversion -/

/-- When every chunk's finish_reason vocabulary is within the mapped set and
    some chunk carries a truthy finish_reason (or one was already bound),
    the groq loop terminates by synthesizing a complete event at iterator
    exhaustion, with no error. -/
theorem groqStreamAux_ok (chunks : List GroqChunk) :
    ∀ (stop : Option StopReason) (first : Bool),
      (∀ c ∈ chunks, ∀ fr, c.finish_reason = some fr →
        fr = "stop" ∨ fr = "length") →
      (stop.isSome = true ∨ ∃ c ∈ chunks, truthyFinish c.finish_reason) →
      ∃ evs sr, groqStreamAux stop first chunks
          = (evs ++ [⟨.complete, "", some sr⟩], none)
        ∧ ∀ e ∈ evs, e.event_type ≠ .complete := by
  induction chunks with
  | nil =>
    intro stop first _ hsome
    rcases hsome with hs | ⟨c, hc, _⟩
    · rcases stop with _ | sr
      · simp at hs
      · exact ⟨[], sr, by simp [groqStreamAux], by simp⟩
    · simp at hc
  | cons c rest ih =>
    intro stop first hvocab hsome
    by_cases ht : truthyFinish c.finish_reason = true
    · rcases hfr : c.finish_reason with _ | fr
      · rw [hfr] at ht
        simp [truthyFinish] at ht
      · rcases hvocab c (List.mem_cons_self c rest) fr hfr with h | h
        · subst h
          have ht2 : truthyFinish (some "stop") = true := by decide
          rcases ih (some .end_of_turn) false
              (fun d hd => hvocab d (List.mem_cons_of_mem c hd))
              (Or.inl rfl) with ⟨evs, sr, heq, hnc⟩
          refine ⟨⟨if first then .start else .progress, c.content.getD "",
              none⟩ :: evs, sr, ?_, ?_⟩
          · simp [groqStreamAux, hfr, ht2,
              map_finish_reason_to_stop_reason, heq]
          · intro e he
            rcases List.mem_cons.mp he with h' | h'
            · subst h'
              by_cases hf : first <;> simp [hf]
            · exact hnc e h'
        · subst h
          have ht2 : truthyFinish (some "length") = true := by decide
          rcases ih (some .end_of_message) false
              (fun d hd => hvocab d (List.mem_cons_of_mem c hd))
              (Or.inl rfl) with ⟨evs, sr, heq, hnc⟩
          refine ⟨⟨if first then .start else .progress, c.content.getD "",
              none⟩ :: evs, sr, ?_, ?_⟩
          · simp [groqStreamAux, hfr, ht2,
              map_finish_reason_to_stop_reason, heq]
          · intro e he
            rcases List.mem_cons.mp he with h' | h'
            · subst h'
              by_cases hf : first <;> simp [hf]
            · exact hnc e h'
    · have hsome' : stop.isSome = true ∨ ∃ d ∈ rest, truthyFinish d.finish_reason := by
        rcases hsome with hs | ⟨d, hd, hdt⟩
        · exact Or.inl hs
        · rcases List.mem_cons.mp hd with h' | h'
          · exact absurd (h' ▸ hdt) (by simp [ht])
          · exact Or.inr ⟨d, h', hdt⟩
      rcases ih stop false (fun d hd => hvocab d (List.mem_cons_of_mem c hd))
        hsome' with ⟨evs, sr, heq, hnc⟩
      refine ⟨⟨if first then .start else .progress, c.content.getD "",
          none⟩ :: evs, sr, ?_, ?_⟩
      · simp only [groqStreamAux, ht, if_false, Bool.false_eq_true]
        simp [heq]
      · intro e he
        rcases List.mem_cons.mp he with h' | h'
        · subst h'
          by_cases hf : first <;> simp [hf]
        · exact hnc e h'

/-- When no chunk ever carries a finish_reason, the groq loop reads the
    never-assigned stop_reason local at exhaustion: a fatal error with no
    complete event ever emitted. -/
theorem groqStreamAux_none (chunks : List GroqChunk) :
    ∀ (first : Bool), (∀ c ∈ chunks, c.finish_reason = none) →
      (groqStreamAux none first chunks).2 = some .unboundLocalStopReason
      ∧ ∀ e ∈ (groqStreamAux none first chunks).1, e.event_type ≠ .complete := by
  induction chunks with
  | nil => intro first _; simp [groqStreamAux]
  | cons c rest ih =>
    intro first hnone
    have hc : c.finish_reason = none := hnone c (List.mem_cons_self c rest)
    have ht : truthyFinish c.finish_reason = false := by
      simp [hc, truthyFinish]
    rcases ih false (fun d hd => hnone d (List.mem_cons_of_mem c hd)) with
      ⟨h2, h1⟩
    constructor
    · simp only [groqStreamAux, ht, Bool.false_eq_true, if_false]
      exact h2
    · intro e he
      simp only [groqStreamAux, ht, Bool.false_eq_true, if_false] at he
      rcases List.mem_cons.mp he with h' | h'
      · subst h'
        by_cases hf : first <;> simp [hf]
      · exact h1 e h'

/-! ## Lemmas about the tool-call accumulator -/

/-- Once the buffer map holds exactly the entry for index i, a sequence of
    fragments all addressing i keeps that single entry and folds the field
    updates into it. -/
theorem foldl_observeFrag_single {Args : Type} (i : Nat)
    (frags : List VFrag) :
    ∀ b : ToolCallBuf Args, (∀ f ∈ frags, f.index = i) →
      frags.foldl observeFrag [(i, b)] = [(i, frags.foldl updateBuf b)] := by
  induction frags with
  | nil => intro b _; rfl
  | cons f rest ih =>
    intro b hidx
    have hf : f.index = i := hidx f (List.mem_cons_self f rest)
    have hstep : observeFrag [(i, b)] f = [(i, updateBuf b f)] := by
      simp [observeFrag, lookupBuf, hf]
    rw [List.foldl_cons, hstep]
    exact ih (updateBuf b f) (fun g hg => hidx g (List.mem_cons_of_mem f hg))

/-- The accumulated argument string after a fold of fragment updates is the
    initial accumulation followed by the fragments' argument substrings in
    arrival order. -/
theorem foldl_updateBuf_args {Args : Type} (frags : List VFrag) :
    ∀ b : ToolCallBuf Args,
      (frags.foldl updateBuf b).arguments_str.getD ""
        = b.arguments_str.getD ""
          ++ concatStrings (frags.filterMap (fun f => f.fargs)) := by
  induction frags with
  | nil => intro b; simp [concatStrings]
  | cons f rest ih =>
    intro b
    rw [List.foldl_cons, ih (updateBuf b f)]
    rcases hfa : f.fargs with _ | a
    · simp [updateBuf, hfa, List.filterMap_cons]
    · simp [updateBuf, hfa, List.filterMap_cons, concatStrings,
        String.append_assoc]

/-- The call_id after a fold of fragment updates is the last id carried by
    any fragment, falling back to the initial value. -/
theorem foldl_updateBuf_call_id {Args : Type} (frags : List VFrag) :
    ∀ b : ToolCallBuf Args,
      (frags.foldl updateBuf b).call_id
        = (b.call_id.toList ++ frags.filterMap (fun f => f.id)).getLast? := by
  induction frags with
  | nil =>
    intro b
    rcases hcb : b.call_id with _ | v <;> simp [hcb]
  | cons f rest ih =>
    intro b
    rw [List.foldl_cons, ih (updateBuf b f)]
    rcases hid : f.id with _ | v
    · simp [updateBuf, hid, List.filterMap_cons]
    · simp only [updateBuf, hid, List.filterMap_cons]
      rw [List.getLast?_append_cons]
      simp

/-- The tool_name after a fold of fragment updates is the last name carried
    by any fragment, falling back to the initial value. -/
theorem foldl_updateBuf_tool_name {Args : Type} (frags : List VFrag) :
    ∀ b : ToolCallBuf Args,
      (frags.foldl updateBuf b).tool_name
        = (b.tool_name.toList ++ frags.filterMap (fun f => f.fname)).getLast? := by
  induction frags with
  | nil =>
    intro b
    rcases hcb : b.tool_name with _ | v <;> simp [hcb]
  | cons f rest ih =>
    intro b
    rw [List.foldl_cons, ih (updateBuf b f)]
    rcases hn : f.fname with _ | v
    · simp [updateBuf, hn, List.filterMap_cons]
    · simp only [updateBuf, hn, List.filterMap_cons]
      rw [List.getLast?_append_cons]
      simp

/-! ## Lemmas about the telemetry traversal -/

mutual

/-- extract_spans is the pre-order listing of the tree, filtered by the
    row guard and mapped to rows: parents precede descendants, spans failing
    the guard contribute no row, and their descendants are still visited. -/
theorem extract_spans_eq_preorder (attrs : List String) (rid : String) :
    (t : SpanTree) →
      extract_spans attrs rid t
        = ((preorder t).filter (rowTest attrs)).map (mkRow attrs rid)
  | .node d children => by
    rw [extract_spans, preorder, extractList_eq_preorder attrs rid children]
    by_cases h : rowTest attrs d <;> simp [h]

theorem extractList_eq_preorder (attrs : List String) (rid : String) :
    (ts : List SpanTree) →
      extractList attrs rid ts
        = ((preorderList ts).filter (rowTest attrs)).map (mkRow attrs rid)
  | [] => by rw [extractList, preorderList]; rfl
  | t :: ts => by
    rw [extractList, preorderList, extract_spans_eq_preorder attrs rid t,
      extractList_eq_preorder attrs rid ts]
    simp

end

/-- Every row produced by extract_spans carries the root-span id it was
    called with in its trace_id field. -/
theorem extract_spans_trace_id (attrs : List String) (rid : String)
    (t : SpanTree) (row : Row) (h : row ∈ extract_spans attrs rid t) :
    row.trace_id = rid := by
  rw [extract_spans_eq_preorder] at h
  rcases List.mem_map.mp h with ⟨d, _, hd⟩
  rw [← hd]
  rfl

/-- With an empty requested-attribute list the row guard degenerates to
    Python truthiness of the attributes dict. -/
theorem rowTest_nil (d : SpanData) :
    rowTest [] d = truthyAttrs d.attributes := by
  simp [rowTest]

/-! ## Lemmas about the meta-reference stream -/

/-- When no token in the stream is an eot/eom marker, the loop never binds
    stop_reason, so the tail applies the out_of_tokens default: the event
    sequence ends in a single complete event carrying out_of_tokens. -/
theorem metaLoop_no_stop {TC : Type}
    (decode : List Nat → StopReason → MMessage TC)
    (tokens : List TokenResult) :
    ∀ (buffer : String) (ipython : Bool) (toks : List Nat),
      (∀ t ∈ tokens, t.text ≠ "<|eot_id|>" ∧ t.text ≠ "<|eom_id|>") →
      ∃ evs, metaLoop decode buffer ipython none toks tokens
          = evs ++ [MEvent.complete (some .out_of_tokens)]
        ∧ ∀ e ∈ evs, ∀ sr, e ≠ MEvent.complete sr := by
  induction tokens with
  | nil =>
    intro buffer ipython toks _
    refine ⟨(if ipython && (decode toks .out_of_tokens).tool_calls.isEmpty then
        [MEvent.progressToolFailure (some .out_of_tokens)] else [])
      ++ (decode toks .out_of_tokens).tool_calls.map
          (fun tc => MEvent.progressToolSuccess tc (some .out_of_tokens)),
      ?_, ?_⟩
    · simp [metaLoop, metaTail]
    · intro e he sr
      rcases List.mem_append.mp he with h | h
      · by_cases hb :
          (ipython && (decode toks .out_of_tokens).tool_calls.isEmpty) = true
        · rw [if_pos hb] at h
          simp at h
          simp [h]
        · rw [if_neg hb] at h
          simp at h
      · rcases List.mem_map.mp h with ⟨tc, _, htc⟩
        rw [← htc]
        simp
  | cons tr rest ih =>
    intro buffer ipython toks hna
    have hh := hna tr (List.mem_cons_self tr rest)
    have hrest := fun t ht => hna t (List.mem_cons_of_mem tr ht)
    by_cases hp : (!ipython && (buffer ++ tr.text).startsWith "<|python_tag|>") = true
    · rcases ih ((buffer ++ tr.text).drop "<|python_tag|>".length) true
        (toks ++ [tr.token]) hrest with ⟨evs, heq, hnc⟩
      refine ⟨MEvent.progressToolStarted :: evs, ?_, ?_⟩
      · simp only [metaLoop, hp, if_true]
        rw [heq]
        rfl
      · intro e he sr
        rcases List.mem_cons.mp he with h' | h'
        · simp [h']
        · exact hnc e h' sr
    · rcases ih (buffer ++ tr.text) ipython (toks ++ [tr.token]) hrest with
        ⟨evs, heq, hnc⟩
      have hs1 : (tr.text = "<|eot_id|>") = False := by simp [hh.1]
      have hs2 : (tr.text = "<|eom_id|>") = False := by simp [hh.2]
      refine ⟨(if ipython then
          MEvent.progressToolInProgress tr.text none
        else MEvent.progressText tr.text none) :: evs, ?_, ?_⟩
      · simp only [metaLoop, hp, Bool.false_eq_true, if_false, hs1, hs2,
          eq_self_iff_true, decide_False]
        simp only [Bool.false_or, Bool.or_self]
        rw [heq]
        rcases Bool.eq_false_or_eq_true ipython with hb | hb <;>
          simp [hb, hh.1, hh.2]
      · intro e he sr
        rcases List.mem_cons.mp he with h' | h'
        · rcases Bool.eq_false_or_eq_true ipython with hb | hb <;>
            rw [hb] at h' <;> simp [h']
        · exact hnc e h' sr

/-! ## Claim C1: behavior when the provider stream closes without a
terminal marker -/

/-- C1 counterexample: the claim says every normalizer fails with a fatal
    UnterminatedStream error and never synthesizes a complete event at
    natural iterator exhaustion.  The groq adapter has no terminal-marker
    chunk at all: when its stream of one "stop" chunk closes by iterator
    exhaustion it synthesizes a complete event (carrying the collected stop
    reason) and reports no error. -/
theorem C1_counterexample :
    convert_chat_completion_response_stream [⟨some "stop", some "hi"⟩]
      = ([⟨.start, "hi", none⟩, ⟨.complete, "", some .end_of_turn⟩], none) := by
  decide

/-- C1 amended: the vLLM normalizer fails with the unterminated-stream
    error and emits no complete event when its chunk stream closes without
    "[DONE]"; the groq adapter instead synthesizes a complete event at
    natural iterator exhaustion whenever a mapped finish_reason was
    observed, and fails fatally (unbound stop_reason local) with no
    complete event only when no finish_reason ever arrived. -/
theorem C1_amended :
    (∀ (Args : Type) (parse : String → Option Args)
        (txts : List (String × Option String)),
      convert_streaming_results parse (txts.map textChunk)
        = (.start :: txts.map (textEvent Args), some .unterminatedStream))
    ∧ (∀ (Args : Type) (parse : String → Option Args)
        (txts : List (String × Option String)) (sr : Option StopReason),
      VEvent.complete sr ∉
        (convert_streaming_results parse (txts.map textChunk)).1)
    ∧ (∀ chunks : List GroqChunk,
      (∀ c ∈ chunks, ∀ fr, c.finish_reason = some fr →
        fr = "stop" ∨ fr = "length") →
      (∃ c ∈ chunks, truthyFinish c.finish_reason) →
      ∃ evs sr, convert_chat_completion_response_stream chunks
        = (evs ++ [⟨.complete, "", some sr⟩], none))
    ∧ (∀ chunks : List GroqChunk,
      (∀ c ∈ chunks, c.finish_reason = none) →
      (convert_chat_completion_response_stream chunks).2
          = some .unboundLocalStopReason
        ∧ ∀ e ∈ (convert_chat_completion_response_stream chunks).1,
            e.event_type ≠ .complete) := by
  refine ⟨?_, ?_, ?_, ?_⟩
  · intro Args parse txts
    simp [convert_streaming_results, convertAux_text_unterminated]
  · intro Args parse txts sr h
    simp only [convert_streaming_results, convertAux_text_unterminated] at h
    rcases List.mem_cons.mp h with h' | h'
    · exact absurd h' (by simp)
    · exact complete_not_mem_textEvents sr txts h'
  · intro chunks hvocab hsome
    rcases groqStreamAux_ok chunks none true hvocab (Or.inr hsome) with
      ⟨evs, sr, heq, _⟩
    exact ⟨evs, sr, heq⟩
  · intro chunks hnone
    exact groqStreamAux_none chunks true hnone

/-- C1 witness: the amended theorem applied at concrete groq streams,
    discharging its hypotheses. -/
theorem C1_witness :
    (∃ evs sr, convert_chat_completion_response_stream
        [⟨none, some "a"⟩, ⟨some "length", some "b"⟩]
      = (evs ++ [⟨.complete, "", some sr⟩], none))
    ∧ (convert_chat_completion_response_stream [⟨none, some "x"⟩]).2
        = some .unboundLocalStopReason :=
  ⟨C1_amended.2.2.1 [⟨none, some "a"⟩, ⟨some "length", some "b"⟩]
      (by decide) (by decide),
    (C1_amended.2.2.2 [⟨none, some "x"⟩] (by decide)).1⟩

/-! ## Claim C2: finalization of a tool call whose accumulated argument
string is not valid JSON -/

/-- C2 counterexample: the claim says finalization of an unparseable
    argument string returns a ParseFailure reported in-band as a failed
    progress event and never raises a fatal error before the complete
    event.  The vLLM finalization pass calls json.loads without a handler:
    on an unparseable accumulated string the stream aborts fatally right
    after the start event, emitting neither a failed-status progress event
    nor a complete event. -/
theorem C2_counterexample :
    convert_streaming_results (fun _ => (none : Option Unit))
        [.record (some "tool_calls")
          (.tool_calls [⟨0, some "c1", some "f", some "x"⟩])]
      = ([.start], some .jsonDecodeError) := rfl

/-- Reduction of the terminal tool_calls chunk whose single accumulated
    argument string fails to parse. -/
theorem convertAux_bad_finalize {Args : Type} (parse : String → Option Args)
    (sb : Option (Option StopReason)) (i : Nat) (cid cn : Option String)
    (s : String) (h : parse s = none) :
    convertAux parse sb []
        [.record (some "tool_calls") (.tool_calls [⟨i, cid, cn, some s⟩])]
      = ([], some .jsonDecodeError) := by
  have hfoldl : ([(⟨i, cid, cn, some s⟩ : VFrag)]).foldl observeFrag
      ([] : List (Nat × ToolCallBuf Args)) = [(i, ⟨cid, cn, some s, none⟩)] := by
    rw [List.foldl_cons, List.foldl_nil, observeFrag_nil]
    rcases cid with _ | c <;> rcases cn with _ | n <;> rfl
  have hfin : finalizeAll parse (some StopReason.out_of_tokens)
      [(i, (⟨cid, cn, some s, none⟩ : ToolCallBuf Args))]
      = ([], [], some .jsonDecodeError) := by
    simp [finalizeAll, h]
  simp only [convertAux, convert_finish_reason]
  simp only [hfoldl]
  simp [hfin]

/-- C2 amended: on the chunk whose finish_reason signals tool-call
    completion, an accumulated argument string that is not valid JSON makes
    the vLLM normalizer abort with a fatal JSON-decode error: the text
    deltas already emitted stand, but no failed-status progress event and
    no complete event are produced. -/
theorem C2_amended {Args : Type} (parse : String → Option Args)
    (txts : List (String × Option String)) (i : Nat)
    (cid cn : Option String) (s : String) (h : parse s = none) :
    convert_streaming_results parse
        (txts.map textChunk ++
          [.record (some "tool_calls") (.tool_calls [⟨i, cid, cn, some s⟩])])
      = (.start :: txts.map (textEvent Args), some .jsonDecodeError) := by
  simp [convert_streaming_results, convertAux_text_prefix,
    convertAux_bad_finalize parse _ i cid cn s h]

/-- C2 witness: the amended theorem applied at a concrete stream with one
    text chunk and one unparseable tool-call fragment. -/
theorem C2_witness :
    convert_streaming_results (fun _ => (none : Option Unit))
        ([("hello", none)].map textChunk ++
          [.record (some "tool_calls")
            (.tool_calls [⟨1, some "c9", some "g", some "oops"⟩])])
      = (.start :: [("hello", none)].map (textEvent Unit),
         some .jsonDecodeError) :=
  C2_amended (fun _ => none) [("hello", none)] 1 (some "c9") (some "g")
    "oops" rfl

/-! ## Claim C3: unmapped finish-reason strings -/

/-- C3 counterexample: the claim says every stop-reason resolver fails on a
    finish-reason string outside its mapping table and never silently maps
    it.  The vLLM resolver maps the unrecognized string "banana" silently
    to out_of_tokens. -/
theorem C3_counterexample :
    convert_finish_reason (some "banana") = some .out_of_tokens := rfl

/-- C3 amended: the groq resolver fails (ValueError) on every finish-reason
    string outside its enumerated table, but the vLLM resolver silently
    maps every string other than "stop" to out_of_tokens. -/
theorem C3_amended :
    (∀ s : String, s ≠ "stop" → s ≠ "length" → s ≠ "tool_calls" →
      map_finish_reason_to_stop_reason s = .error (.invalidFinishReason s))
    ∧ (∀ s : String, s ≠ "stop" →
      convert_finish_reason (some s) = some .out_of_tokens) := by
  constructor
  · intro s h1 h2 h3
    simp [map_finish_reason_to_stop_reason, h1, h2, h3]
  · intro s h1
    simp [convert_finish_reason, h1]

/-- C3 witness: the amended theorem applied at concrete unmapped
    finish-reason strings. -/
theorem C3_witness :
    map_finish_reason_to_stop_reason "banana"
        = .error (.invalidFinishReason "banana")
      ∧ convert_finish_reason (some "grape") = some .out_of_tokens :=
  ⟨C3_amended.1 "banana" (by decide) (by decide) (by decide),
    C3_amended.2 "grape" (by decide)⟩

/-! ## Claim C4: mapping of "stop" and of the length/token-limit signal -/

/-- C4: the claim says "stop" maps to end_of_turn (true in both resolvers)
    and an explicit length/token-limit signal maps to out_of_tokens.  The
    vLLM resolver does map "length" to out_of_tokens, but the groq resolver
    maps "length" — which its own docstring glosses as "maximum number of
    tokens specified in the request was reached" — to end_of_message, the
    canonical value for a different condition.  This theorem evaluates both
    resolvers at the failing input. -/
theorem C4_code_eval :
    map_finish_reason_to_stop_reason "length" = .ok .end_of_message
      ∧ map_finish_reason_to_stop_reason "stop" = .ok .end_of_turn
      ∧ convert_finish_reason (some "length") = some .out_of_tokens
      ∧ convert_finish_reason (some "stop") = some .end_of_turn := by
  refine ⟨rfl, rfl, rfl, rfl⟩

/-! ## Claim C5: default stop reason when no explicit finish signal was
observed -/

/-- C5 counterexample: the claim says every stream reaching its terminal
    event without an observed finish signal gets stop_reason out_of_tokens.
    In the vLLM normalizer a stream whose only record carries no
    finish_reason ends in a complete event whose stop_reason is None, not
    out_of_tokens. -/
theorem C5_counterexample :
    convert_streaming_results (fun _ => (none : Option Unit))
        [.record none (.content "hi"), .done]
      = ([.start, .progressText "hi" none, .complete none], none) := rfl

/-- C5 amended: only the meta-reference inference path applies the
    out_of_tokens default — a token stream with no eot/eom marker ends in
    exactly one complete event carrying out_of_tokens.  The vLLM normalizer
    instead attaches the last chunk's converted finish_reason, which is
    None when no finish signal was observed, and the groq adapter fails
    fatally (unbound stop_reason local) without a complete event in that
    case. -/
theorem C5_amended :
    (∀ (TC : Type) (decode : List Nat → StopReason → MMessage TC)
        (tokens : List TokenResult),
      (∀ t ∈ tokens, t.text ≠ "<|eot_id|>" ∧ t.text ≠ "<|eom_id|>") →
      ∃ evs, chat_completion_stream decode tokens
          = MEvent.start :: evs ++ [MEvent.complete (some .out_of_tokens)]
        ∧ ∀ e ∈ evs, ∀ sr, e ≠ MEvent.complete sr)
    ∧ (∀ (Args : Type) (parse : String → Option Args)
        (txts : List (String × Option String)) (p : String × Option String),
      p.2 = none →
      convert_streaming_results parse ((txts ++ [p]).map textChunk ++ [.done])
        = (.start :: (txts ++ [p]).map (textEvent Args) ++ [.complete none],
           none))
    ∧ (∀ chunks : List GroqChunk,
      (∀ c ∈ chunks, c.finish_reason = none) →
      (convert_chat_completion_response_stream chunks).2
          = some .unboundLocalStopReason
        ∧ ∀ e ∈ (convert_chat_completion_response_stream chunks).1,
            e.event_type ≠ .complete) := by
  refine ⟨?_, ?_, ?_⟩
  · intro TC decode tokens hna
    rcases metaLoop_no_stop decode tokens "" false [] hna with ⟨evs, heq, hnc⟩
    exact ⟨evs, by simp [chat_completion_stream, heq], hnc⟩
  · intro Args parse txts p hp
    have h := convertAux_text_done parse txts p none
    rw [hp] at h
    simp only [convert_finish_reason] at h
    simp only [convert_streaming_results]
    rw [h]
    rfl
  · intro chunks hnone
    exact groqStreamAux_none chunks true hnone

/-- C5 witness: the amended theorem applied at concrete streams for all
    three paths, discharging each hypothesis. -/
theorem C5_witness :
    (∃ evs, chat_completion_stream (fun _ _ => (⟨"", []⟩ : MMessage Unit))
          [⟨"a", 1⟩]
        = MEvent.start :: evs ++ [MEvent.complete (some .out_of_tokens)]
      ∧ ∀ e ∈ evs, ∀ sr, e ≠ MEvent.complete sr)
    ∧ convert_streaming_results (fun _ => (none : Option Unit))
        (([] ++ [("hi", none)]).map textChunk ++ [.done])
      = (.start :: ([] ++ [("hi", none)]).map (textEvent Unit)
          ++ [.complete none], none)
    ∧ (convert_chat_completion_response_stream [⟨none, some "y"⟩]).2
        = some .unboundLocalStopReason :=
  ⟨C5_amended.1 Unit (fun _ _ => ⟨"", []⟩) [⟨"a", 1⟩] (by decide),
    C5_amended.2.1 Unit (fun _ => none) [] ("hi", none) rfl,
    (C5_amended.2.2 [⟨none, some "y"⟩] (by decide)).1⟩

/-! ## Claim C6: event count and order for a text-only stream -/

/-- C6 counterexample: the claim quantifies over every N, including N = 0.
    For the chunk sequence consisting of just the terminal "[DONE]" marker
    the claim demands 1 + 0 + 1 = 2 events (start then complete); the vLLM
    normalizer instead emits only the start event and then fails fatally,
    because the complete event reads the converted_stop_reason local that
    no record chunk ever bound. -/
theorem C6_counterexample :
    convert_streaming_results (fun _ => (none : Option Unit)) [.done]
        = ([.start], some .unboundStopReason)
      ∧ (convert_streaming_results (fun _ => (none : Option Unit))
          [.done]).1.length = 1 := by
  exact ⟨rfl, rfl⟩

/-- C6 amended: for every chunk sequence of N plain-text chunks with N at
    least one, followed by the terminal marker and containing no tool-call
    fragments, the normalizer emits no error and exactly 1 + N + 1 events:
    the start event first, then one progress event per text chunk carrying
    the text deltas in arrival order, then one complete event last
    (carrying the last chunk's converted finish_reason). -/
theorem C6_amended (Args : Type) (parse : String → Option Args)
    (txts : List (String × Option String)) (p : String × Option String) :
    convert_streaming_results parse ((txts ++ [p]).map textChunk ++ [.done])
        = (.start :: (txts ++ [p]).map (textEvent Args)
            ++ [.complete (convert_finish_reason p.2)], none)
      ∧ (convert_streaming_results parse
          ((txts ++ [p]).map textChunk ++ [.done])).1.length
        = 1 + (txts ++ [p]).length + 1 := by
  have h := convertAux_text_done parse txts p none
  constructor
  · simp only [convert_streaming_results]
    rw [h]
    rfl
  · simp only [convert_streaming_results]
    rw [h]
    simp
    omega

/-! ## Claim C7: the accumulator merges same-index fragments in order -/

/-- C7: for every nonempty sequence of tool-call fragments addressing the
    same call index, the resulting buffer entry's accumulated argument
    string is the concatenation, in arrival order, of all argument
    substrings carried by the fragments, and call_id / tool_name hold the
    value carried by the (last) fragment that carries them. -/
theorem C7_accumulator (Args : Type) (i : Nat) (frags : List VFrag)
    (h1 : frags ≠ []) (h2 : ∀ f ∈ frags, f.index = i) :
    ∃ b : ToolCallBuf Args,
      lookupBuf i (frags.foldl observeFrag []) = some b
        ∧ b.arguments_str.getD ""
            = concatStrings (frags.filterMap (fun f => f.fargs))
        ∧ b.call_id = (frags.filterMap (fun f => f.id)).getLast?
        ∧ b.tool_name = (frags.filterMap (fun f => f.fname)).getLast? := by
  rcases frags with _ | ⟨f, rest⟩
  · exact absurd rfl h1
  · have hf : f.index = i := h2 f (List.mem_cons_self f rest)
    have hstep : observeFrag ([] : List (Nat × ToolCallBuf Args)) f
        = [(i, updateBuf (emptyBuf Args) f)] := by
      rw [observeFrag_nil, hf]
    refine ⟨rest.foldl updateBuf (updateBuf (emptyBuf Args) f), ?_, ?_, ?_, ?_⟩
    · rw [List.foldl_cons, hstep,
        foldl_observeFrag_single i rest (updateBuf (emptyBuf Args) f)
          (fun g hg => h2 g (List.mem_cons_of_mem f hg))]
      simp [lookupBuf]
    · have := foldl_updateBuf_args (f :: rest) (emptyBuf Args)
      rw [List.foldl_cons] at this
      rw [this]
      rfl
    · have := foldl_updateBuf_call_id (f :: rest) (emptyBuf Args)
      rw [List.foldl_cons] at this
      rw [this]
      rfl
    · have := foldl_updateBuf_tool_name (f :: rest) (emptyBuf Args)
      rw [List.foldl_cons] at this
      rw [this]
      rfl

/-- C7 witness: the accumulator theorem applied at a concrete fragment
    sequence that sets the id and name once and the arguments in two
    pieces. -/
theorem C7_witness :
    ∃ b : ToolCallBuf Unit,
      lookupBuf 0 (([⟨0, some "c1", some "get_bp", none⟩,
            ⟨0, none, none, some "ab"⟩,
            ⟨0, none, none, some "cd"⟩] : List VFrag).foldl observeFrag [])
          = some b
        ∧ b.arguments_str.getD ""
            = concatStrings (([⟨0, some "c1", some "get_bp", none⟩,
                ⟨0, none, none, some "ab"⟩,
                ⟨0, none, none, some "cd"⟩] : List VFrag).filterMap
                  (fun f => f.fargs))
        ∧ b.call_id = (([⟨0, some "c1", some "get_bp", none⟩,
            ⟨0, none, none, some "ab"⟩,
            ⟨0, none, none, some "cd"⟩] : List VFrag).filterMap
              (fun f => f.id)).getLast?
        ∧ b.tool_name = (([⟨0, some "c1", some "get_bp", none⟩,
            ⟨0, none, none, some "ab"⟩,
            ⟨0, none, none, some "cd"⟩] : List VFrag).filterMap
              (fun f => f.fname)).getLast? :=
  C7_accumulator Unit 0
    [⟨0, some "c1", some "get_bp", none⟩, ⟨0, none, none, some "ab"⟩,
      ⟨0, none, none, some "cd"⟩] (by decide) (by decide)

/-! ## Claim C8: row extraction with an empty requested-attribute list -/

/-- C8 counterexample: the claim says an empty attributes-to-return list
    makes the presence test vacuously true for every reachable span,
    including spans with an empty attributes map.  A single-span tree whose
    attributes map is the empty dict is reachable (one span in pre-order)
    but yields zero rows, because the extraction guard first requires the
    attributes dict to be truthy and the empty dict is falsy in Python. -/
theorem C8_counterexample :
    ((buildTree [⟨"r", none, "root", some []⟩] "r" none).map
        (extract_spans [] "r") = some [])
      ∧ ((buildTree [⟨"r", none, "root", some []⟩] "r" none).map
          (fun t => (preorder t).length) = some 1) := ⟨rfl, rfl⟩

/-- With an empty requested-attribute list, the number of extracted rows is
    the number of spans whose attributes dict is truthy (non-empty). -/
theorem extract_spans_nil_length (rid : String) (t : SpanTree) :
    (extract_spans [] rid t).length
      = ((preorder t).filter (fun d => truthyAttrs d.attributes)).length := by
  rw [extract_spans_eq_preorder, List.length_map]
  have : ∀ d ∈ preorder t, rowTest [] d = truthyAttrs d.attributes :=
    fun d _ => rowTest_nil d
  rw [List.filter_congr this]

/-- C8 amended: buildTree followed by extract_spans with an empty
    attributes-to-return list yields one row per reachable span whose
    attributes map is non-empty; reachable spans whose attributes map is
    empty (or None) contribute no row, because the extraction guard
    requires a truthy attributes dict before the vacuous presence test. -/
theorem C8_amended (flat : List FlatSpan) (rid : String)
    (maxDepth : Option Nat) :
    (buildTree flat rid maxDepth).map
        (fun t => (extract_spans [] rid t).length)
      = (buildTree flat rid maxDepth).map
          (fun t =>
            ((preorder t).filter (fun d => truthyAttrs d.attributes)).length) := by
  rcases hb : buildTree flat rid maxDepth with _ | t
  · rfl
  · simp [extract_spans_nil_length]

/-! ## Claim C9: pre-order traversal with guarded row emission -/

/-- C9: extract_spans is exactly the pre-order (depth-first, parent before
    children) listing of the tree filtered by the all-attributes-present
    guard and mapped to rows — so every span's row precedes the rows of all
    its descendants, a span failing the guard contributes no row itself,
    and its descendants are still visited: every span in the tree that
    passes the guard contributes its row. -/
theorem C9_preorder (attrs : List String) (rid : String) (t : SpanTree) :
    extract_spans attrs rid t
        = ((preorder t).filter (rowTest attrs)).map (mkRow attrs rid)
      ∧ ∀ d ∈ preorder t, rowTest attrs d = true →
          mkRow attrs rid d ∈ extract_spans attrs rid t := by
  refine ⟨extract_spans_eq_preorder attrs rid t, ?_⟩
  intro d hd ht
  rw [extract_spans_eq_preorder]
  exact List.mem_map_of_mem (mkRow attrs rid)
    (List.mem_filter.mpr ⟨hd, ht⟩)

/-- C9 witness: in a tree whose root is missing the required attribute, the
    child that does carry it still contributes its row (applied via the
    claim theorem at a concrete tree). -/
theorem C9_witness :
    mkRow ["k"] "r" ⟨"s2", "n2", some [("k", some "v")]⟩
      ∈ extract_spans ["k"] "r"
        (.node ⟨"s1", "n1", some []⟩
          [.node ⟨"s2", "n2", some [("k", some "v")]⟩ []]) :=
  (C9_preorder ["k"] "r"
      (.node ⟨"s1", "n1", some []⟩
        [.node ⟨"s2", "n2", some [("k", some "v")]⟩ []])).2
    ⟨"s2", "n2", some [("k", some "v")]⟩ (by decide) (by decide)

/-! ## Claim C10: the row's trace_id field holds the root span id -/

/-- C10: every row emitted by query_spans carries, in its trace_id field,
    the root_span_id of the trace whose tree was traversed — not the
    trace's trace_id; the two coincide in a row exactly when that trace's
    root_span_id equals its trace_id. -/
theorem C10_trace_id (attrs : List String) (traces : List Trace)
    (getTree : String → SpanTree) (row : Row)
    (h : row ∈ query_spans attrs traces getTree) :
    ∃ tr, tr ∈ traces ∧ row.trace_id = tr.root_span_id
      ∧ (row.trace_id = tr.trace_id ↔ tr.root_span_id = tr.trace_id) := by
  rcases List.mem_flatten.mp h with ⟨l, hl, hrow⟩
  rcases List.mem_map.mp hl with ⟨tr, htr, hltr⟩
  subst hltr
  have hid := extract_spans_trace_id attrs tr.root_span_id
    (getTree tr.root_span_id) row hrow
  exact ⟨tr, htr, hid, by rw [hid]⟩

/-- C10 witness: the theorem applied at a concrete trace whose
    root_span_id differs from its trace_id. -/
theorem C10_witness :
    ∃ tr, tr ∈ [(⟨"t1", "r1"⟩ : Trace)]
      ∧ (⟨"r1", "r1", "root", []⟩ : Row).trace_id = tr.root_span_id
      ∧ ((⟨"r1", "r1", "root", []⟩ : Row).trace_id = tr.trace_id
          ↔ tr.root_span_id = tr.trace_id) :=
  C10_trace_id [] [⟨"t1", "r1"⟩]
    (fun _ => .node ⟨"r1", "root", some [("k", some "v")]⟩ [])
    ⟨"r1", "r1", "root", []⟩ (by decide)

end LlamaStack
